import Mathlib

/-!
A verification development for the MyFS distributed file system
(client striping/parity engine in `myfs/myfs.cpp`, per-connection node
server in `myfs/server.cpp`, wire framing in `common/protocol.h`).

The C++ code is shallowly embedded as executable Lean definitions:

* byte strings are modelled as a length `L : ℕ` together with a byte
  function `B : ℕ → ℕ` (byte at each index);
* the striping of `myfs_write` is modelled by `strideBufByte`,
  `parityByte` and `chunkByte`, which give the byte content of the chunk
  the client sends to each lane for each stride;
* the wire protocol is modelled at byte level: a `MessageHeader` is the
  16 bytes `encodeHeader`, little-endian, as laid out on x86-64
  (4-byte `type`, 4 zero padding bytes, 8-byte `length`; the padding is
  zero for the headers the client builds, so the first 8 bytes decode to
  the type value);
* the server's per-connection message loop `client_handler` is the step
  function `handlerStep` on a server state (file store plus the
  per-connection open-stream record), consuming a byte stream; note that
  `std::fstream::open` on an already-open stream fails and only sets the
  failbit without closing or replacing the old file, which the
  `ConnSt.failbit` field models;
* the read pipeline of `myfs_read` for a window starting at offset 0 is
  modelled by folding the receive workers' ring updates
  (`ringAfterAllLive`, `ringAfterOneDead`) followed by the copy-out
  position computation `copyOutPos`;
* the parity-leads ordering of `server_read_worker` is modelled as a
  small step relation `laneStep` on the worker/parity-offset state.
-/

namespace MyFS

/-- `CHUNK_SIZE` from `common/protocol.h`: 1 MiB. -/
def CHUNK_SIZE : ℕ := 1048576

/-- Linux errno value for an I/O error, set by `myfs_open` on too many
dead lanes. -/
def eioCode : ℕ := 5

/-- Stride size used by `myfs_write` (myfs.cpp lines 216-218) and, as
`chunk_size * n_data`, by `myfs_read` (lines 463-464): `CHUNK_SIZE * (n-1)`,
except a single-lane session where it is one chunk. -/
def strideSize (n : ℕ) : ℕ := if n = 1 then CHUNK_SIZE else CHUNK_SIZE * (n - 1)

/-- `total_strides` of `myfs_write` (lines 229-233): full strides plus one
zero-padded stride when `size` is not a multiple of the stride size. -/
def totalStrides (n L : ℕ) : ℕ :=
  L / strideSize n + (if L % strideSize n = 0 then 0 else 1)

/-- Ceiling division, the `⌈L/S⌉` of the specification. -/
def ceilDiv (a b : ℕ) : ℕ := (a + b - 1) / b

/-- Byte `j` of the zero-padded stride buffer `data_chunks_buf` for
stride `k` (myfs.cpp lines 266-271): bytes of `B` from `k*S` on, zero
beyond the logical length `L`. -/
def strideBufByte (n : ℕ) (B : ℕ → ℕ) (L k j : ℕ) : ℕ :=
  if k * strideSize n + j < L then B (k * strideSize n + j) else 0

/-- Byte `j` of the parity chunk for stride `k`, computed by the XOR
accumulation loop of `myfs_write` (lines 277-291): `parity_chunk` starts
as zeros and each of the `n-1` data chunks is XORed in. -/
def parityByte (n : ℕ) (B : ℕ → ℕ) (L k j : ℕ) : ℕ :=
  (List.range (n - 1)).foldl
    (fun acc i => Nat.xor acc (strideBufByte n B L k (i * CHUNK_SIZE + j))) 0

/-- Byte `j` of the chunk `myfs_write` sends to lane `i` for stride `k`
(lines 296-315): the whole stride buffer for a single-lane session, the
`i`-th data chunk for `i < n-1`, and the parity chunk for the last lane. -/
def chunkByte (n : ℕ) (B : ℕ → ℕ) (L k i j : ℕ) : ℕ :=
  if n = 1 then strideBufByte n B L k j
  else if i < n - 1 then strideBufByte n B L k (i * CHUNK_SIZE + j)
  else parityByte n B L k j

/-- The chunk sent to lane `i` for stride `k`, as a byte list of length
`CHUNK_SIZE` (the client always announces and sends exactly `chunk_size`
bytes, lines 320-329). -/
def chunkList (n : ℕ) (B : ℕ → ℕ) (L k i : ℕ) : List ℕ :=
  (List.range CHUNK_SIZE).map (chunkByte n B L k i)

/-- Plain iterated XOR `f 0 XOR f 1 XOR ... XOR f (m-1)`, the form in
which the specification states the parity invariant. -/
def xorRange (f : ℕ → ℕ) (m : ℕ) : ℕ :=
  (List.range m).foldr (fun i acc => Nat.xor (f i) acc) 0

/-- Little-endian encoding of `v` in `k` bytes. -/
def encLE : ℕ → ℕ → List ℕ
  | 0, _ => []
  | k + 1, v => v % 256 :: encLE k (v / 256)

/-- Little-endian decoding of a byte list. -/
def decLE : List ℕ → ℕ
  | [] => 0
  | b :: bs => b + 256 * decLE bs

/-- The 16 wire bytes of a `MessageHeader{type, length}` on x86-64:
4-byte `type` plus 4 zero padding bytes (together `encLE 8 ty` for the
type values 0..3), then the 8-byte `length`. -/
def encodeHeader (ty len : ℕ) : List ℕ := encLE 8 ty ++ encLE 8 len

/-- Per-connection stream state of the server (`client_files` /
`client_offsets` entries for one connection).  `target` is the path the
open `std::fstream` refers to; `failbit` records that a later `open` on
the already-open stream failed (C++ `filebuf::open` fails without
closing the old file, and subsequent `seekp`/`write` on the stream do
nothing); `cursor` is `client_offsets[client_fd]`. -/
structure ConnSt where
  target : Option (List ℕ)
  failbit : Bool
  cursor : ℕ

/-- Server state seen by one connection handler: the node's file store
(path, as raw bytes, to file contents) and the connection record. -/
structure SrvState where
  files : List ℕ → Option (List ℕ)
  conn : ConnSt

/-- Point update of the file store. -/
def fsUpdate (fs : List ℕ → Option (List ℕ)) (p : List ℕ) (v : Option (List ℕ)) :
    List ℕ → Option (List ℕ) :=
  fun q => if q = p then v else fs q

/-- `seekp(pos)` followed by `write(payload)` on a file of current
contents `f` (positions beyond the end read back as zero bytes). -/
def writeAt (f : List ℕ) (pos : ℕ) (payload : List ℕ) : List ℕ :=
  f.take pos ++ List.replicate (pos - f.length) 0 ++ payload ++ f.drop (pos + payload.length)

/-- One iteration of the server's message loop `client_handler`
(server.cpp lines 762-911) on the remaining input byte stream.  Returns
`none` when no full header can be read (connection closed), otherwise
the new state, the bytes sent back to the client, and the unconsumed
input.  Dispatch mirrors the `switch`:

* `MSG_READ` (0): path length `>= CHUNK_SIZE` is rejected without
  consuming the path; otherwise the path is consumed and the file is
  answered with a size header and its contents, or a zero-size header;
* `MSG_WRITE_PATH` (1): length `>= CHUNK_SIZE` rejected; on a fresh
  stream the target file is created/truncated and the cursor reset; on a
  connection whose stream is already open the `open` call fails, setting
  the failbit and leaving the old file open, yet `is_open()` still holds
  so the cursor is reset anyway;
* `MSG_WRITE` (2): announced length `> CHUNK_SIZE` is rejected *before
  receiving any payload byte*, so the payload bytes stay in the stream;
  otherwise the payload is consumed and, if the stream is open and not
  failed, written at the cursor which then advances by the length;
* `HEARTBEAT` (3): the header is echoed;
* unknown types: logged and skipped. -/
def handlerStep (st : SrvState) (input : List ℕ) : Option (SrvState × List ℕ × List ℕ) :=
  if input.length < 16 then none
  else
    let ty := decLE (input.take 8)
    let len := decLE ((input.drop 8).take 8)
    let rest := input.drop 16
    if ty = 0 then
      if CHUNK_SIZE ≤ len then some (st, [], rest)
      else
        let p := rest.take len
        let rest2 := rest.drop len
        match st.files p with
        | none => some (st, encodeHeader 0 0, rest2)
        | some f => some (st, encodeHeader 0 f.length ++ f, rest2)
    else if ty = 1 then
      if CHUNK_SIZE ≤ len then some (st, [], rest)
      else if rest.length < len then some (st, [], rest.drop len)
      else
        let p := rest.take len
        let rest2 := rest.drop len
        match st.conn.target with
        | none => some (⟨fsUpdate st.files p (some []), ⟨some p, false, 0⟩⟩, [], rest2)
        | some q => some (⟨st.files, ⟨some q, true, 0⟩⟩, [], rest2)
    else if ty = 2 then
      if CHUNK_SIZE < len then some (st, [], rest)
      else if rest.length < len then some (st, [], rest.drop len)
      else
        let payload := rest.take len
        let rest2 := rest.drop len
        match st.conn.target with
        | none => some (st, [], rest2)
        | some p =>
          if st.conn.failbit then some (st, [], rest2)
          else
            some (⟨fsUpdate st.files p
                     (some (writeAt ((st.files p).getD []) st.conn.cursor payload)),
                   ⟨some p, false, st.conn.cursor + len⟩⟩, [], rest2)
    else if ty = 3 then some (st, input.take 16, rest)
    else some (st, [], rest)

/-- Run the handler loop for at most `fuel` messages; returns the final
state and the unconsumed input. -/
def runHandler : ℕ → SrvState → List ℕ → SrvState × List ℕ
  | 0, st, input => (st, input)
  | fuel + 1, st, input =>
    match handlerStep st input with
    | none => (st, input)
    | some (st', _, rest) => runHandler fuel st' rest

/-- The framed `MSG_WRITE` byte stream for a list of payloads. -/
def encodeFrames (ps : List (List ℕ)) : List ℕ :=
  (ps.map (fun q => encodeHeader 2 q.length ++ q)).flatten

/-- The byte stream `myfs_write` at offset 0 sends to lane `i`
(lines 239-354): one `MSG_WRITE_PATH` frame carrying the path, then one
`MSG_WRITE` frame per stride, each announcing `CHUNK_SIZE` bytes and
carrying the lane's chunk for that stride. -/
def clientStream (n : ℕ) (path : List ℕ) (B : ℕ → ℕ) (L i : ℕ) : List ℕ :=
  encodeHeader 1 path.length ++ path ++
    ((List.range (totalStrides n L)).map
      (fun k => encodeHeader 2 CHUNK_SIZE ++ chunkList n B L k i)).flatten

/-- Observable outcome of one `myfs_write` call: the byte stream sent to
each lane, the lane liveness afterwards, and the returned value. -/
structure WriteOutcome where
  sent : ℕ → List ℕ
  serversAfter : ℕ → Bool
  ret : Int

/-- `myfs_write` (lines 205-359).  A call with nonzero offset logs a
warning and passes through to `pwrite` on the local backing file
(modelled by the environment function `pw`), sending nothing; a call at
offset 0 streams the striped frames to every live lane and returns the
byte count.  (`log_msg` output and mid-write send failures are not
modelled; the all-live case sends `clientStream` to each lane.) -/
def myfsWriteCall (n : ℕ) (live : ℕ → Bool) (pw : Int → ℕ → Int)
    (path : List ℕ) (B : ℕ → ℕ) (L : ℕ) (off : Int) : WriteOutcome :=
  if off ≠ 0 then ⟨fun _ => [], live, pw off L⟩
  else ⟨fun i => if i < n ∧ live i = true then clientStream n path B L i else [], live, (L : Int)⟩

/-- `n_data` of `myfs_read` (line 463): number of data lanes. -/
def nDataLanes (n : ℕ) : ℕ := if 1 < n then n - 1 else 1

/-- The read-side stride `chunk_size * n_data` (line 464). -/
def readStride (n : ℕ) : ℕ := CHUNK_SIZE * nDataLanes n

/-- The client ring buffer size `CHUNK_SIZE * n` (allocation of
`state->buf` in `myfs_main`, line 724). -/
def ringSize (n : ℕ) : ℕ := CHUNK_SIZE * n

/-- `end_stride_idx` of `myfs_read` (line 472): `(end_byte - 1) / stride`.
For a window `[0, L)` this is `(L - 1) / S`; at `L = 0` the C++ signed
division of `-1` truncates to `0`, which agrees with truncated `ℕ`
subtraction here. -/
def endStrideIdx (L S : ℕ) : ℕ := (L - 1) / S

/-- Overwrite one chunk-sized region of the ring, starting at `pos`,
with the bytes of `c`. -/
def updateChunk (r : ℕ → ℕ) (pos : ℕ) (c : ℕ → ℕ) : ℕ → ℕ :=
  fun q => if pos ≤ q ∧ q < pos + CHUNK_SIZE then c (q - pos) else r q

/-- Ring position a receive worker fills for lane `i`'s chunk of stride
`k`: `myfs_read` passes `state->buf + (buffer_offset % (chunk_size * n))`
with `buffer_offset = stride_idx * stride + i * chunk_size`
(lines 499 and 526-528). -/
def workerRingPos (n k i : ℕ) : ℕ :=
  (k * readStride n + i * CHUNK_SIZE) % ringSize n

/-- Ring position copy-out reads for file byte `p` (lines 634-641):
`buffer_pos = p % stride`, `server_idx = buffer_pos / chunk_size`,
`buffer_offset = server_idx * chunk_size + buffer_pos % chunk_size`
(all lanes live, so the dead-lane redirect at line 637 is inactive). -/
def copyOutPos (n p : ℕ) : ℕ :=
  (p % readStride n / CHUNK_SIZE) * CHUNK_SIZE + p % readStride n % CHUNK_SIZE

/-- Ring contents after the request phase of `myfs_read` over the window
`[0, L)` with every lane live (lines 479-557).  Strides are processed in
order; for each stride `k` and data lane `i` whose chunk overlaps the
window (`k*S + i*C < L`, the overlap test of line 493 at `start_byte =
0`) a worker drains the next `CHUNK_SIZE` bytes of lane `i`'s node file
— which, the node file being streamed sequentially from stride 0, is
exactly the lane's chunk for stride `k` — into the ring at
`workerRingPos n k i`.  The per-stride `written` waits serialize the
workers of one lane, so the fold order is program order. -/
def ringAfterAllLive (n : ℕ) (B : ℕ → ℕ) (L : ℕ) (ring0 : ℕ → ℕ) : ℕ → ℕ :=
  (List.range (endStrideIdx L (readStride n) + 1)).foldl
    (fun ring k =>
      (List.range (nDataLanes n)).foldl
        (fun r i =>
          if k * readStride n + i * CHUNK_SIZE < L then
            updateChunk r (workerRingPos n k i) (chunkByte n B L k i)
          else r)
        ring)
    ring0

/-- Byte `p` returned by `myfs_read` for the window `[0, L)` with every
lane live: the copy-out loop (lines 622-657) reads the final ring at
`copyOutPos`. -/
def myfsReadByteAllLive (n : ℕ) (B : ℕ → ℕ) (L : ℕ) (ring0 : ℕ → ℕ) (p : ℕ) : ℕ :=
  ringAfterAllLive n B L ring0 (copyOutPos n p)

/-- Bytes a worker receives for data-lane index `i` of stride `k` when
data lane `m` is dead: the request is redirected to the parity lane
(`idx = n - 1`, lines 486-487), whose node file streams the parity
chunks in stride order, so the redirected worker receives the parity
chunk of stride `k`; a live lane receives its own chunk. -/
def deadRecvChunk (n m : ℕ) (B : ℕ → ℕ) (L k i : ℕ) : ℕ → ℕ :=
  fun j => chunkByte n B L k (if i = m then n - 1 else i) j

/-- Request phase of one stride with dead data lane `m`: as in the
all-live case, but lane `m`'s ring region is filled from the parity
socket (the destination `buffer_offset` of line 499 still uses `i`). -/
def strideReqDead (n m : ℕ) (B : ℕ → ℕ) (L k : ℕ) (ring : ℕ → ℕ) : ℕ → ℕ :=
  (List.range (nDataLanes n)).foldl
    (fun r i =>
      if k * readStride n + i * CHUNK_SIZE < L then
        updateChunk r (workerRingPos n k i) (deadRecvChunk n m B L k i)
      else r)
    ring

/-- Reconstruction step for stride `k` with dead data lane `m`
(lines 585-610): `memcpy` the ring region at
`(stride_idx * stride + n_data * chunk_size) % (chunk_size * n)` over the
region at `(stride_idx * stride + m * chunk_size) % (chunk_size * n)`,
then XOR every live data lane's region of this stride into it. -/
def strideReconDead (n m k : ℕ) (ring : ℕ → ℕ) : ℕ → ℕ :=
  let dOff := workerRingPos n k m
  let pOff := (k * readStride n + nDataLanes n * CHUNK_SIZE) % ringSize n
  let copied := updateChunk ring dOff (fun j => ring (pOff + j))
  (List.range (nDataLanes n)).foldl
    (fun r j =>
      if j ≠ m then
        updateChunk r dOff (fun t => Nat.xor (r (dOff + t)) (r (workerRingPos n k j + t)))
      else r)
    copied

/-- Ring contents after `myfs_read` on the window `[0, L)` with exactly
data lane `m` dead: per stride, the request phase then the
reconstruction step (the `need_parity` branch is taken since lane `m`
is dead). -/
def ringAfterOneDead (n m : ℕ) (B : ℕ → ℕ) (L : ℕ) (ring0 : ℕ → ℕ) : ℕ → ℕ :=
  (List.range (endStrideIdx L (readStride n) + 1)).foldl
    (fun ring k => strideReconDead n m k (strideReqDead n m B L k ring)) ring0

/-- Result of `myfs_open` as observed by the caller. -/
inductive OpenResult where
  | ok : OpenResult
  | err : ℕ → OpenResult
deriving DecidableEq

/-- The `fail_count` accumulation of `myfs_open`'s post-round lane scan
(lines 160-181), over the lane liveness after the initial `MSG_READ`
round. -/
def failCount (n : ℕ) (live : ℕ → Bool) : ℕ :=
  (List.range n).foldl (fun acc i => if live i then acc else acc + 1) 0

/-- Number of dead lanes, in the direct counting form the specification
uses. -/
def deadCount (n : ℕ) (live : ℕ → Bool) : ℕ :=
  (List.range n).countP (fun i => !live i)

/-- Outcome of `myfs_open(path, O_RDONLY)` after the initial read round
(lines 183-190 and 202): `errno = EIO` and `-1` when `fail_count > 1 ||
fail_count == n`, success otherwise. -/
def myfsOpenRdonly (n : ℕ) (live : ℕ → Bool) : OpenResult :=
  if 1 < failCount n live ∨ failCount n live = n then .err eioCode else .ok

/-- State of one data-lane receive worker together with the parity
lane's progress: `parityOffset` is `offsets[n-1]` (an `off_t`, initially
`-stride` at open, line 178), `started` records that the worker's
condition-variable wait (lines 376-382) has returned, and `received` is
the worker's `written` byte count. -/
structure LaneWaitState where
  parityOffset : Int
  started : Bool
  received : ℕ

/-- Interleaved steps of the system around one data-lane worker for
stride `k` (`server_read_worker`, lines 361-397, spawned at lines
526-538).  `advance` models the engine setting `offsets[n-1]` to a new,
nonnegative request offset (line 519; request offsets only grow);
`beginRecv` models the worker's `parity_cv.wait` returning, which for a
non-parity worker requires `parity_offset / stride >= curr_stride` in
C++ truncated division; `recvSome` models a successful `recv` of `c`
bytes after the wait. -/
inductive laneStep (S : Int) (k : ℕ) (isPar : Bool) : LaneWaitState → LaneWaitState → Prop
  | advance (st : LaneWaitState) (off : Int) (h0 : 0 ≤ off) (h : st.parityOffset ≤ off) :
      laneStep S k isPar st ⟨off, st.started, st.received⟩
  | beginRecv (st : LaneWaitState) (h : st.started = false)
      (hg : isPar = true ∨ (k : Int) ≤ Int.tdiv st.parityOffset S) :
      laneStep S k isPar st ⟨st.parityOffset, true, st.received⟩
  | recvSome (st : LaneWaitState) (h : st.started = true) (c : ℕ) (hc : 0 < c) :
      laneStep S k isPar st ⟨st.parityOffset, true, st.received + c⟩

/-- Initial state at open time: `offsets[n-1] = -stride`, worker not yet
past its wait, nothing received. -/
def laneInit (S : Int) : LaneWaitState := ⟨-S, false, 0⟩

/-- Reachability of a worker/parity state from the open-time state. -/
def laneReach (S : Int) (k : ℕ) (isPar : Bool) : LaneWaitState → Prop :=
  Relation.ReflTransGen (laneStep S k isPar) (laneInit S)

/-- A concrete byte string used as failing input: byte `p` is the index
`p / CHUNK_SIZE` of the chunk containing `p`. -/
def exBytes : ℕ → ℕ := fun p => p / CHUNK_SIZE

/-- A concrete byte string used as failing input: byte 5 throughout the
first chunk, byte 7 afterwards. -/
def exB3 : ℕ → ℕ := fun p => if p < CHUNK_SIZE then 5 else 7

/-- Server state of a freshly accepted connection on an empty node:
no files, no open write stream, cursor 0. -/
def srvInit : SrvState := ⟨fun _ => none, ⟨none, false, 0⟩⟩

/-- Byte stream of a connection that writes one byte `7` to path `[97]`
("a") and then rotates to path `[98]` ("b") and writes one byte `9`:
`WRITE_PATH "a"`, `WRITE [7]`, `WRITE_PATH "b"`, `WRITE [9]`. -/
def c8Stream : List ℕ :=
  encodeHeader 1 1 ++ ([97] ++ (encodeHeader 2 1 ++ ([7] ++
    (encodeHeader 1 1 ++ ([98] ++ (encodeHeader 2 1 ++ [9]))))))

theorem encLE_length (k v : ℕ) : (encLE k v).length = k := by
  induction k generalizing v with
  | zero => rfl
  | succ k ih => simp [encLE, ih]

theorem decLE_encLE {k v : ℕ} (h : v < 256 ^ k) : decLE (encLE k v) = v := by
  induction k generalizing v with
  | zero => simp [pow_zero, Nat.lt_one_iff] at h; simp [h, encLE, decLE]
  | succ k ih =>
    have hdiv : v / 256 < 256 ^ k := by
      rw [Nat.div_lt_iff_lt_mul (by norm_num)]
      calc v < 256 ^ (k + 1) := h
        _ = 256 ^ k * 256 := by ring
    simp only [encLE, decLE]
    rw [ih hdiv, Nat.mod_add_div]

theorem header_take8 (ty len : ℕ) (tail : List ℕ) :
    ((encodeHeader ty len ++ tail).take 8) = encLE 8 ty := by
  rw [encodeHeader, List.append_assoc]
  exact List.take_left' (encLE_length 8 ty)

theorem header_drop8_take8 (ty len : ℕ) (tail : List ℕ) :
    (((encodeHeader ty len ++ tail).drop 8).take 8) = encLE 8 len := by
  rw [encodeHeader, List.append_assoc, List.drop_left' (encLE_length 8 ty)]
  exact List.take_left' (encLE_length 8 len)

theorem header_drop16 (ty len : ℕ) (tail : List ℕ) :
    ((encodeHeader ty len ++ tail).drop 16) = tail := by
  have h16 : (encodeHeader ty len).length = 16 := by
    simp [encodeHeader, encLE_length]
  exact List.drop_left' h16

theorem header_length_ge (ty len : ℕ) (tail : List ℕ) :
    ¬ (encodeHeader ty len ++ tail).length < 16 := by
  simp only [List.length_append, encodeHeader, encLE_length, Nat.not_lt]
  omega

theorem decLE_header_ty (ty len : ℕ) (tail : List ℕ) (h : ty < 256 ^ 8) :
    decLE ((encodeHeader ty len ++ tail).take 8) = ty := by
  rw [header_take8]; exact decLE_encLE h

theorem decLE_header_len (ty len : ℕ) (tail : List ℕ) (h : len < 256 ^ 8) :
    decLE (((encodeHeader ty len ++ tail).drop 8).take 8) = len := by
  rw [header_drop8_take8]; exact decLE_encLE h

theorem fsUpdate_self (fs : List ℕ → Option (List ℕ)) (p : List ℕ) (v : Option (List ℕ)) :
    fsUpdate fs p v p = v := by
  simp [fsUpdate]

theorem fsUpdate_eq_self {fs : List ℕ → Option (List ℕ)} {p : List ℕ} {v : Option (List ℕ)}
    (h : fs p = v) : fsUpdate fs p v = fs := by
  funext q
  by_cases hq : q = p
  · subst hq; simp [fsUpdate, h]
  · simp [fsUpdate, hq]

theorem fsUpdate_fsUpdate (fs : List ℕ → Option (List ℕ)) (p : List ℕ)
    (v w : Option (List ℕ)) : fsUpdate (fsUpdate fs p v) p w = fsUpdate fs p w := by
  funext q
  by_cases hq : q = p <;> simp [fsUpdate, hq]

theorem writeAt_append (f q : List ℕ) : writeAt f f.length q = f ++ q := by
  simp [writeAt, List.drop_eq_nil_of_le (Nat.le_add_right _ _)]

theorem chunk_lt_pow : CHUNK_SIZE < 256 ^ 8 := by decide

theorem handlerStep_writePath_fresh (fs0 : List ℕ → Option (List ℕ)) (p tail : List ℕ)
    (hp : p.length < CHUNK_SIZE) :
    handlerStep ⟨fs0, ⟨none, false, 0⟩⟩ (encodeHeader 1 p.length ++ (p ++ tail)) =
      some (⟨fsUpdate fs0 p (some []), ⟨some p, false, 0⟩⟩, [], tail) := by
  have hlen : p.length < 256 ^ 8 := lt_trans hp chunk_lt_pow
  have hrest : ¬ (p ++ tail).length < p.length := by
    simp only [List.length_append, Nat.not_lt]; omega
  simp only [handlerStep,
    if_neg (header_length_ge 1 p.length (p ++ tail)),
    decLE_header_ty 1 p.length (p ++ tail) (by decide : (1 : ℕ) < 256 ^ 8),
    decLE_header_len 1 p.length (p ++ tail) hlen,
    header_drop16]
  simp only [if_neg (by decide : ¬ (1 : ℕ) = 0), if_pos rfl,
    if_neg (Nat.not_le.mpr hp), if_neg hrest,
    List.take_left' rfl, List.drop_left' rfl]
  simp

theorem handlerStep_write_open (st : SrvState) (p q tail : List ℕ)
    (ht : st.conn.target = some p) (hf : st.conn.failbit = false)
    (hq : q.length ≤ CHUNK_SIZE) :
    handlerStep st (encodeHeader 2 q.length ++ (q ++ tail)) =
      some (⟨fsUpdate st.files p (some (writeAt ((st.files p).getD []) st.conn.cursor q)),
             ⟨some p, false, st.conn.cursor + q.length⟩⟩, [], tail) := by
  have hlen : q.length < 256 ^ 8 := lt_of_le_of_lt hq chunk_lt_pow
  have hrest : ¬ (q ++ tail).length < q.length := by
    simp only [List.length_append, Nat.not_lt]; omega
  simp only [handlerStep,
    if_neg (header_length_ge 2 q.length (q ++ tail)),
    decLE_header_ty 2 q.length (q ++ tail) (by decide : (2 : ℕ) < 256 ^ 8),
    decLE_header_len 2 q.length (q ++ tail) hlen,
    header_drop16]
  simp only [if_neg (by decide : ¬ (2 : ℕ) = 0), if_neg (by decide : ¬ (2 : ℕ) = 1),
    if_pos rfl, if_neg (Nat.not_lt.mpr hq), if_neg hrest,
    List.take_left' rfl, List.drop_left' rfl, ht, hf]
  simp [hf]

theorem handlerStep_writePath_open (st : SrvState) (q0 p tail : List ℕ)
    (ht : st.conn.target = some q0) (hp : p.length < CHUNK_SIZE) :
    handlerStep st (encodeHeader 1 p.length ++ (p ++ tail)) =
      some (⟨st.files, ⟨some q0, true, 0⟩⟩, [], tail) := by
  have hlen : p.length < 256 ^ 8 := lt_trans hp chunk_lt_pow
  have hrest : ¬ (p ++ tail).length < p.length := by
    simp only [List.length_append, Nat.not_lt]; omega
  simp only [handlerStep,
    if_neg (header_length_ge 1 p.length (p ++ tail)),
    decLE_header_ty 1 p.length (p ++ tail) (by decide : (1 : ℕ) < 256 ^ 8),
    decLE_header_len 1 p.length (p ++ tail) hlen,
    header_drop16]
  simp only [if_neg (by decide : ¬ (1 : ℕ) = 0), if_pos rfl,
    if_neg (Nat.not_le.mpr hp), if_neg hrest,
    List.take_left' rfl, List.drop_left' rfl, ht]
  simp

theorem handlerStep_write_failbit (st : SrvState) (p q tail : List ℕ)
    (ht : st.conn.target = some p) (hf : st.conn.failbit = true)
    (hq : q.length ≤ CHUNK_SIZE) :
    handlerStep st (encodeHeader 2 q.length ++ (q ++ tail)) = some (st, [], tail) := by
  have hlen : q.length < 256 ^ 8 := lt_of_le_of_lt hq chunk_lt_pow
  have hrest : ¬ (q ++ tail).length < q.length := by
    simp only [List.length_append, Nat.not_lt]; omega
  simp only [handlerStep,
    if_neg (header_length_ge 2 q.length (q ++ tail)),
    decLE_header_ty 2 q.length (q ++ tail) (by decide : (2 : ℕ) < 256 ^ 8),
    decLE_header_len 2 q.length (q ++ tail) hlen,
    header_drop16]
  simp only [if_neg (by decide : ¬ (2 : ℕ) = 0), if_neg (by decide : ¬ (2 : ℕ) = 1),
    if_pos rfl, if_neg (Nat.not_lt.mpr hq), if_neg hrest,
    List.take_left' rfl, List.drop_left' rfl, ht, hf]
  simp [hf]

theorem fsUpdate_of_ne {fs : List ℕ → Option (List ℕ)} {p : List ℕ} {v : Option (List ℕ)}
    {r : List ℕ} (h : r ≠ p) : fsUpdate fs p v r = fs r := by
  simp [fsUpdate, h]

theorem encodeFrames_cons (q : List ℕ) (ps : List (List ℕ)) :
    encodeFrames (q :: ps) = encodeHeader 2 q.length ++ (q ++ encodeFrames ps) := by
  simp [encodeFrames, List.append_assoc]

theorem runHandler_writeFrames (ps : List (List ℕ)) :
    ∀ (fs : List ℕ → Option (List ℕ)) (p f : List ℕ),
      (∀ q ∈ ps, q.length ≤ CHUNK_SIZE) → fs p = some f →
      runHandler ps.length ⟨fs, ⟨some p, false, f.length⟩⟩ (encodeFrames ps) =
        (⟨fsUpdate fs p (some (f ++ ps.flatten)), ⟨some p, false, (f ++ ps.flatten).length⟩⟩, []) := by
  induction ps with
  | nil =>
    intro fs p f _ hfp
    simp [encodeFrames, runHandler, fsUpdate_eq_self hfp]
  | cons q ps ih =>
    intro fs p f hq hfp
    have hq1 : q.length ≤ CHUNK_SIZE := hq q (List.mem_cons_self q ps)
    have hstep := handlerStep_write_open ⟨fs, ⟨some p, false, f.length⟩⟩ p q
      (encodeFrames ps) rfl rfl hq1
    rw [encodeFrames_cons]
    show runHandler (ps.length + 1) _ _ = _
    rw [runHandler, hstep]
    simp only [hfp, Option.getD_some, writeAt_append]
    have hcur : f.length + q.length = (f ++ q).length := (List.length_append f q).symm
    rw [hcur, ih (fsUpdate fs p (some (f ++ q))) p (f ++ q)
      (fun r hr => hq r (List.mem_cons_of_mem q hr)) (fsUpdate_self fs p _)]
    rw [fsUpdate_fsUpdate]
    simp [List.append_assoc]

theorem runHandler_second_session (fs0 : List ℕ → Option (List ℕ)) (pA pB qA qB : List ℕ)
    (hA : pA.length < CHUNK_SIZE) (hB : pB.length < CHUNK_SIZE)
    (hqA : qA.length ≤ CHUNK_SIZE) (hqB : qB.length ≤ CHUNK_SIZE) :
    runHandler 4 ⟨fs0, ⟨none, false, 0⟩⟩
      (encodeHeader 1 pA.length ++ (pA ++ (encodeHeader 2 qA.length ++ (qA ++
        (encodeHeader 1 pB.length ++ (pB ++ (encodeHeader 2 qB.length ++ (qB ++ [])))))))) =
      (⟨fsUpdate (fsUpdate fs0 pA (some [])) pA (some qA), ⟨some pA, true, 0⟩⟩, []) := by
  have hW : writeAt ([] : List ℕ) 0 qA = qA := by simp [writeAt]
  have h1 := handlerStep_writePath_fresh fs0 pA
    (encodeHeader 2 qA.length ++ (qA ++
      (encodeHeader 1 pB.length ++ (pB ++ (encodeHeader 2 qB.length ++ (qB ++ [])))))) hA
  have h2 : handlerStep ⟨fsUpdate fs0 pA (some []), ⟨some pA, false, 0⟩⟩
      (encodeHeader 2 qA.length ++ (qA ++
        (encodeHeader 1 pB.length ++ (pB ++ (encodeHeader 2 qB.length ++ (qB ++ [])))))) =
      some (⟨fsUpdate (fsUpdate fs0 pA (some [])) pA (some qA), ⟨some pA, false, qA.length⟩⟩,
        [], encodeHeader 1 pB.length ++ (pB ++ (encodeHeader 2 qB.length ++ (qB ++ [])))) := by
    rw [handlerStep_write_open ⟨fsUpdate fs0 pA (some []), ⟨some pA, false, 0⟩⟩ pA qA
      (encodeHeader 1 pB.length ++ (pB ++ (encodeHeader 2 qB.length ++ (qB ++ [])))) rfl rfl hqA]
    dsimp only
    rw [fsUpdate_self]
    simp only [Option.getD_some, Nat.zero_add, hW]
  have h3 := handlerStep_writePath_open
    ⟨fsUpdate (fsUpdate fs0 pA (some [])) pA (some qA), ⟨some pA, false, qA.length⟩⟩ pA pB
    (encodeHeader 2 qB.length ++ (qB ++ [])) rfl hB
  have h4 := handlerStep_write_failbit
    ⟨fsUpdate (fsUpdate fs0 pA (some [])) pA (some qA), ⟨some pA, true, 0⟩⟩ pA qB
    ([] : List ℕ) rfl rfl hqB
  show runHandler (3 + 1) _ _ = _
  rw [runHandler, h1]
  show runHandler (2 + 1) _ _ = _
  rw [runHandler, h2]
  show runHandler (1 + 1) _ _ = _
  rw [runHandler, h3]
  show runHandler (0 + 1) _ _ = _
  rw [runHandler, h4]
  rfl

theorem flatten_length_const {ps : List (List ℕ)} {c : ℕ}
    (h : ∀ q ∈ ps, q.length = c) : ps.flatten.length = ps.length * c := by
  induction ps with
  | nil => simp
  | cons q ps ih =>
    simp only [List.flatten_cons, List.length_append, List.length_cons]
    rw [h q (List.mem_cons_self q ps), ih (fun r hr => h r (List.mem_cons_of_mem q hr))]
    ring

theorem chunkList_length (n : ℕ) (B : ℕ → ℕ) (L k i : ℕ) :
    (chunkList n B L k i).length = CHUNK_SIZE := by
  simp [chunkList]

theorem strideSize_pos {n : ℕ} (hn : 1 ≤ n) : 0 < strideSize n := by
  by_cases h1 : n = 1
  · simp [strideSize, h1]; decide
  · have h2 : 2 ≤ n := by omega
    simp only [strideSize, if_neg h1]
    have : 0 < n - 1 := by omega
    exact Nat.mul_pos (by decide) this

theorem totalStrides_eq_ceilDiv {n : ℕ} (hn : 1 ≤ n) (L : ℕ) :
    totalStrides n L = ceilDiv L (strideSize n) := by
  have hS : 0 < strideSize n := strideSize_pos hn
  set S := strideSize n with hSdef
  have hmod : L = S * (L / S) + L % S := (Nat.div_add_mod L S).symm
  by_cases h : L % S = 0
  · obtain ⟨q, hq⟩ : ∃ q, L = S * q := ⟨L / S, by omega⟩
    subst hq
    rw [totalStrides, ceilDiv, ← hSdef, if_pos h]
    have e1 : S * q + S - 1 = S * q + (S - 1) := Nat.add_sub_assoc hS (S * q)
    have e2 : (S * q + (S - 1)) / S = q + (S - 1) / S := Nat.mul_add_div hS q (S - 1)
    have e3 : (S - 1) / S = 0 := Nat.div_eq_of_lt (by omega)
    have e4 : S * q / S = q := Nat.mul_div_cancel_left q hS
    rw [e1, e2, e3, e4]
  · obtain ⟨q, r, hr1, hr2, hL⟩ : ∃ q r, 1 ≤ r ∧ r < S ∧ L = S * q + r :=
      ⟨L / S, L % S, Nat.one_le_iff_ne_zero.mpr h, Nat.mod_lt L hS, hmod⟩
    subst hL
    rw [totalStrides, ceilDiv, ← hSdef, if_neg h]
    have e1 : S * q + r + S - 1 = S * q + (r + S - 1) := by
      rw [Nat.add_sub_assoc hS (S * q + r), Nat.add_assoc, ← Nat.add_sub_assoc hS r]
    have e2 : (S * q + (r + S - 1)) / S = q + (r + S - 1) / S := Nat.mul_add_div hS q _
    have e3 : (r + S - 1) / S = 1 := Nat.div_eq_of_lt_le (by omega) (by omega)
    have e5 : (S * q + r) / S = q + r / S := Nat.mul_add_div hS q r
    have e6 : r / S = 0 := Nat.div_eq_of_lt hr2
    rw [e5, e6, e1, e2, e3]

theorem foldl_xor (f : ℕ → ℕ) (l : List ℕ) :
    ∀ a : ℕ, l.foldl (fun acc i => Nat.xor acc (f i)) a =
      Nat.xor a (l.foldr (fun i acc => Nat.xor (f i) acc) 0) := by
  induction l with
  | nil => intro a; exact (Nat.xor_zero a).symm
  | cons i l ih =>
    intro a
    rw [List.foldl_cons, List.foldr_cons, ih]
    exact Nat.xor_assoc a (f i) _

theorem parityByte_eq_xorRange (n : ℕ) (B : ℕ → ℕ) (L k j : ℕ) :
    parityByte n B L k j =
      xorRange (fun i => strideBufByte n B L k (i * CHUNK_SIZE + j)) (n - 1) := by
  rw [parityByte, xorRange, foldl_xor]
  exact Nat.zero_xor _

theorem failCount_foldl (live : ℕ → Bool) (l : List ℕ) :
    ∀ a : ℕ, l.foldl (fun acc i => if live i then acc else acc + 1) a =
      a + l.countP (fun i => !live i) := by
  induction l with
  | nil => intro a; simp
  | cons i l ih =>
    intro a
    by_cases h : live i
    · simp [List.countP_cons, h, ih]
    · simp [List.countP_cons, h, ih]
      omega

theorem failCount_eq_deadCount (n : ℕ) (live : ℕ → Bool) :
    failCount n live = deadCount n live := by
  rw [failCount, deadCount, failCount_foldl, Nat.zero_add]

theorem tdiv_le_tdiv_nonneg {a b S : Int} (ha : 0 ≤ a) (hS : 0 < S) (hab : a ≤ b) :
    Int.tdiv a S ≤ Int.tdiv b S := by
  rw [Int.tdiv_eq_ediv ha (le_of_lt hS), Int.tdiv_eq_ediv (le_trans ha hab) (le_of_lt hS)]
  exact Int.ediv_le_ediv hS hab

theorem tdiv_neg_self {S : Int} (hS : 0 < S) : Int.tdiv (-S) S = -1 := by
  rw [Int.neg_tdiv, Int.tdiv_self (ne_of_gt hS)]

/-- Inductive invariant of the worker/parity system: the parity offset
is either still the initial `-S` or nonnegative; no byte is received
before the wait returns; and once the wait has returned the parity
offset is nonnegative and its stride is at least `k`. -/
theorem laneReach_invariant {S : Int} {k : ℕ} {st : LaneWaitState}
    (hS : 0 < S) (hr : laneReach S k false st) :
    (st.parityOffset = -S ∨ 0 ≤ st.parityOffset) ∧
      (st.started = false → st.received = 0) ∧
      (st.started = true → (k : Int) ≤ Int.tdiv st.parityOffset S) := by
  induction hr with
  | refl => exact ⟨Or.inl rfl, fun _ => rfl, fun hc => by simp [laneInit] at hc⟩
  | tail hab hbc ih =>
    obtain ⟨ih1, ih2, ih3⟩ := ih
    cases hbc with
    | advance off h0 h =>
      refine ⟨Or.inr h0, ih2, fun hs => ?_⟩
      have hold := ih3 hs
      rcases ih1 with h1 | h1
      · exfalso
        rw [h1, tdiv_neg_self hS] at hold
        have hk : (0 : Int) ≤ (k : Int) := Int.ofNat_nonneg k
        omega
      · exact le_trans hold (tdiv_le_tdiv_nonneg h1 hS h)
    | beginRecv h hg =>
      rcases hg with hg | hg
      · exact absurd hg (by simp)
      · exact ⟨ih1, fun hc => by simp at hc, fun _ => hg⟩
    | recvSome h c hc => exact ⟨ih1, fun hc2 => by simp at hc2, fun _ => ih3 h⟩

/-- Claim C1: the claimed write/read round-trip fails on the code.  With
`N = 3` live lanes, after the striped write of the 4 MiB byte string
`exBytes` (whose byte at `p` is the chunk index `p / CHUNK_SIZE`, so
bytes 0..1 MiB are `0`), the read of the window `[0, 4 MiB)` returns `3`
at position 0: the stride-1 receive workers write the ring at
`(stride * 1 + i * CHUNK_SIZE) % (3 * CHUNK_SIZE)`, so lane 1's stride-1
chunk (file bytes `[3 MiB, 4 MiB)`, all `3`) lands at ring offset 0,
which is where copy-out reads byte 0 from. -/
theorem c1_read_not_roundtrip :
    myfsReadByteAllLive 3 exBytes (4 * CHUNK_SIZE) (fun _ => 0) 0 = 3 ∧
      exBytes 0 = 0 := by
  decide

/-- Claim C2: for a write at offset 0 with `N > 1` live lanes and a
stride `k` below `⌈L/S⌉`, byte `i` of the chunk the client sends to the
parity lane `N-1` is the XOR of the `N-1` data chunks' bytes `i` taken
from the zero-padded stride buffer. -/
theorem c2_parity_chunk_is_xor (n L k j : ℕ) (B : ℕ → ℕ)
    (hn : 2 ≤ n) (_hk : k < ceilDiv L (strideSize n)) (_hj : j < CHUNK_SIZE) :
    chunkByte n B L k (n - 1) j =
      xorRange (fun i => strideBufByte n B L k (i * CHUNK_SIZE + j)) (n - 1) := by
  rw [chunkByte, if_neg (by omega : ¬ n = 1), if_neg (Nat.lt_irrefl (n - 1))]
  exact parityByte_eq_xorRange n B L k j

theorem c2_parity_chunk_is_xor_witness :
    2 ≤ 3 ∧ 0 < ceilDiv 1 (strideSize 3) ∧ 0 < CHUNK_SIZE ∧
    chunkByte 3 (fun _ => 9) 1 0 (3 - 1) 0 =
      xorRange (fun i => strideBufByte 3 (fun _ => 9) 1 0 (i * CHUNK_SIZE + 0)) (3 - 1) :=
  ⟨by decide, by decide, by decide,
    c2_parity_chunk_is_xor 3 1 0 0 (fun _ => 9) (by decide) (by decide) (by decide)⟩

/-- Claim C3: the reconstruction step does not produce the missing data
chunk.  With `N = 3`, data lane 0 dead and the single-stride file `exB3`
(data chunk 0 all `5`, data chunk 1 all `7`, hence parity all `2`), the
stored chunks satisfy the parity invariant (`2 XOR 7 = 5`, third
conjunct), yet after request and reconstruction the ring holds `7` at
the dead lane's position: the parity chunk was received into the dead
lane's region and the `memcpy` source `(stride_idx * stride + n_data *
chunk_size) % (chunk_size * n)` holds only the ring's initial bytes
(zero here), so the result is `0 XOR 7 = 7`, not `5`. -/
theorem c3_reconstruction_gives_wrong_bytes :
    ringAfterOneDead 3 0 exB3 (2 * CHUNK_SIZE) (fun _ => 0) 0 = 7 ∧
    chunkByte 3 exB3 (2 * CHUNK_SIZE) 0 0 0 = 5 ∧
    Nat.xor (chunkByte 3 exB3 (2 * CHUNK_SIZE) 0 2 0)
      (chunkByte 3 exB3 (2 * CHUNK_SIZE) 0 1 0) = 5 := by
  decide

/-- Claim C4, counterexample to the claim as stated: the node-length
property does not hold for *every* full-file write.  Connections
persist for the session, so a second write reuses a connection whose
write stream is already open; here lane 0 processes the write of the
1-byte file to path `[97]` ("a") and then the full write of the 1-byte
file to path `[98]` ("b") — both `clientStream`s, all lanes live.  After
the second write completes (the handler consumed the whole stream,
second conjunct), the node file for `[98]` does not have length
`⌈L/S⌉ * CHUNK_SIZE = CHUNK_SIZE` (third conjunct): it was never created
at all, because the second `WRITE_PATH`'s `open` fails on the already
open stream and the subsequent `WRITE` writes nothing. -/
theorem c4_second_write_creates_no_node_file :
    (runHandler 4 srvInit
        (clientStream 3 [97] (fun _ => 0) 1 0 ++ clientStream 3 [98] (fun _ => 0) 1 0)).1.files [98]
        = none ∧
    (runHandler 4 srvInit
        (clientStream 3 [97] (fun _ => 0) 1 0 ++ clientStream 3 [98] (fun _ => 0) 1 0)).2 = [] ∧
    ceilDiv 1 (strideSize 3) * CHUNK_SIZE = CHUNK_SIZE := by
  have htot : totalStrides 3 1 = 1 := by decide
  have hq := chunkList_length 3 (fun _ => 0) 1 0 0
  have hstream : clientStream 3 [97] (fun _ => 0) 1 0 ++ clientStream 3 [98] (fun _ => 0) 1 0 =
      encodeHeader 1 (List.length [97]) ++ ([97] ++
        (encodeHeader 2 (List.length (chunkList 3 (fun _ => 0) 1 0 0)) ++
          ((chunkList 3 (fun _ => 0) 1 0 0) ++
            (encodeHeader 1 (List.length [98]) ++ ([98] ++
              (encodeHeader 2 (List.length (chunkList 3 (fun _ => 0) 1 0 0)) ++
                ((chunkList 3 (fun _ => 0) 1 0 0) ++ []))))))) := by
    simp [clientStream, htot, chunkList_length, List.range_succ, List.append_assoc]
  have hrun := runHandler_second_session (fun _ => none) [97] [98]
    (chunkList 3 (fun _ => 0) 1 0 0) (chunkList 3 (fun _ => 0) 1 0 0)
    (by decide) (by decide) (le_of_eq hq) (le_of_eq hq)
  have hsrv : srvInit = ⟨(fun _ => none), ⟨none, false, 0⟩⟩ := rfl
  refine ⟨?_, ?_, by decide⟩
  · rw [hsrv, hstream, hrun]
    dsimp only
    rw [fsUpdate_of_ne (by decide), fsUpdate_of_ne (by decide)]
  · rw [hsrv, hstream, hrun]

/-- Claim C4, amended as the counterexample forces: for a full-file
write of length `L` at offset 0 with all lanes live, *on a connection
whose server-side write stream is not yet open* (the connection's first
write), the client sends to every lane `i` the stream `clientStream`:
one `WRITE_PATH` frame and exactly `totalStrides n L = ⌈L/S⌉` `WRITE`
frames, each announcing and carrying exactly `CHUNK_SIZE` bytes; the
node handler consumes the stream entirely, writing each payload at its
stored cursor and advancing the cursor by the payload length, so the
node file ends as the concatenation of the stride chunks with length
`⌈L/S⌉ * CHUNK_SIZE`.  (A later write on the same connection creates no
node file and writes nothing, as the counterexample above and claim C8
show.) -/
theorem c4_node_file_length (n L i : ℕ) (B : ℕ → ℕ) (live : ℕ → Bool)
    (pw : Int → ℕ → Int) (path : List ℕ) (fs0 : List ℕ → Option (List ℕ))
    (hn : 1 ≤ n) (hi : i < n) (hlive : live i = true) (hpath : path.length < CHUNK_SIZE) :
    totalStrides n L = ceilDiv L (strideSize n) ∧
    (myfsWriteCall n live pw path B L 0).sent i = clientStream n path B L i ∧
    (∀ k, (chunkList n B L k i).length = CHUNK_SIZE) ∧
    runHandler (totalStrides n L + 1) ⟨fs0, ⟨none, false, 0⟩⟩
        ((myfsWriteCall n live pw path B L 0).sent i) =
      (⟨fsUpdate fs0 path
          (some ((List.range (totalStrides n L)).map (fun k => chunkList n B L k i)).flatten),
        ⟨some path, false, totalStrides n L * CHUNK_SIZE⟩⟩, []) ∧
    (((List.range (totalStrides n L)).map (fun k => chunkList n B L k i)).flatten).length =
      ceilDiv L (strideSize n) * CHUNK_SIZE := by
  have hsent : (myfsWriteCall n live pw path B L 0).sent i = clientStream n path B L i := by
    rw [myfsWriteCall, if_neg (by simp)]
    simp [hi, hlive]
  set ps := (List.range (totalStrides n L)).map (fun k => chunkList n B L k i) with hps
  have hmem : ∀ q ∈ ps, q.length = CHUNK_SIZE := by
    intro q hq
    obtain ⟨k, _, rfl⟩ := List.mem_map.mp hq
    exact chunkList_length n B L k i
  have hlen : ps.length = totalStrides n L := by
    rw [hps, List.length_map, List.length_range]
  have hflat : ps.flatten.length = totalStrides n L * CHUNK_SIZE := by
    rw [flatten_length_const hmem, hlen]
  have hfun : ((fun q : List ℕ => encodeHeader 2 q.length ++ q) ∘ fun k => chunkList n B L k i) =
      (fun k => encodeHeader 2 CHUNK_SIZE ++ chunkList n B L k i) := by
    funext k
    simp [Function.comp, chunkList_length]
  have hframes : encodeFrames ps =
      ((List.range (totalStrides n L)).map
        (fun k => encodeHeader 2 CHUNK_SIZE ++ chunkList n B L k i)).flatten := by
    rw [encodeFrames, hps, List.map_map, hfun]
  have hcs : clientStream n path B L i =
      encodeHeader 1 path.length ++ (path ++ encodeFrames ps) := by
    rw [clientStream, hframes, List.append_assoc]
  refine ⟨totalStrides_eq_ceilDiv hn L, hsent, fun k => chunkList_length n B L k i, ?_, ?_⟩
  · rw [hsent, hcs]
    rw [runHandler, handlerStep_writePath_fresh fs0 path (encodeFrames ps) hpath]
    have hrun := runHandler_writeFrames ps (fsUpdate fs0 path (some [])) path []
      (fun q hq => le_of_eq (hmem q hq)) (fsUpdate_self fs0 path (some []))
    simp only [List.length_nil, List.nil_append, hlen] at hrun
    show runHandler (totalStrides n L)
        ⟨fsUpdate fs0 path (some []), ⟨some path, false, 0⟩⟩ (encodeFrames ps) = _
    rw [hrun, fsUpdate_fsUpdate, hflat]
  · rw [hflat, totalStrides_eq_ceilDiv hn L]

theorem c4_node_file_length_witness :
    totalStrides 3 1 = ceilDiv 1 (strideSize 3) ∧
    (chunkList 3 (fun _ => 0) 1 0 0).length = CHUNK_SIZE :=
  ⟨(c4_node_file_length 3 1 0 (fun _ => 0) (fun _ => true) (fun a _ => a) [97] (fun _ => none)
      (by decide) (by decide) rfl (by decide)).1,
    (c4_node_file_length 3 1 0 (fun _ => 0) (fun _ => true) (fun a _ => a) [97] (fun _ => none)
      (by decide) (by decide) rfl (by decide)).2.2.1 0⟩

/-- Claim C5: the receive worker does not write only into ring slot
`[l*C, (l+1)*C)`.  For `N = 3`, stride `k = 1`, lane `l = 0`, the
worker's ring position is `2 * CHUNK_SIZE` (slot 2, outside slot 0),
while copy-out for the first byte of that same chunk (file offset
`1 * stride + 0 * CHUNK_SIZE`) reads ring offset 0, i.e. slot 0. -/
theorem c5_worker_writes_outside_slot :
    workerRingPos 3 1 0 = 2 * CHUNK_SIZE ∧
    CHUNK_SIZE ≤ workerRingPos 3 1 0 ∧
    copyOutPos 3 (1 * readStride 3 + 0 * CHUNK_SIZE) = 0 := by
  decide

/-- Claim C6: after the initial read round, `myfs_open(O_RDONLY)` fails
with `errno = EIO` exactly when two or more lanes are dead or all `n`
lanes are dead, and succeeds exactly otherwise. -/
theorem c6_open_eio_iff (n : ℕ) (live : ℕ → Bool) :
    (myfsOpenRdonly n live = OpenResult.err eioCode ↔
        2 ≤ deadCount n live ∨ deadCount n live = n) ∧
    (myfsOpenRdonly n live = OpenResult.ok ↔
        ¬ (2 ≤ deadCount n live ∨ deadCount n live = n)) := by
  have hcond : (1 < deadCount n live ∨ deadCount n live = n) ↔
      (2 ≤ deadCount n live ∨ deadCount n live = n) := by omega
  rw [myfsOpenRdonly, failCount_eq_deadCount]
  by_cases h : 1 < deadCount n live ∨ deadCount n live = n
  · rw [if_pos h]
    exact ⟨⟨fun _ => hcond.mp h, fun _ => rfl⟩,
      ⟨fun hc => absurd hc (by decide), fun hc => absurd (hcond.mp h) hc⟩⟩
  · rw [if_neg h]
    exact ⟨⟨fun hc => absurd hc (by decide), fun hc => absurd (hcond.mpr hc) h⟩,
      ⟨fun _ hc => h (hcond.mpr hc), fun _ => rfl⟩⟩

/-- Claim C7: while parity is in play, a data-lane receive worker for
stride `k` (modelled with `isPar = false`, since `idx ≠ n-1` and the
parity header length is nonzero) holds no received byte in any reachable
state unless the parity lane's offset satisfies
`offsets[parity] / S ≥ k` in C++ truncated division — the worker's
condition-variable wait precedes its receive loop and the parity offset
only grows. -/
theorem c7_parity_leads_data (S : Int) (k : ℕ) (st : LaneWaitState)
    (hS : 0 < S) (hr : laneReach S k false st) (hrec : 0 < st.received) :
    (k : Int) ≤ Int.tdiv st.parityOffset S := by
  obtain ⟨_, h2, h3⟩ := laneReach_invariant hS hr
  by_cases hstart : st.started = true
  · exact h3 hstart
  · have h0 : st.received = 0 := h2 (by simpa using hstart)
    omega

theorem c7_parity_leads_data_witness :
    laneReach 2097152 1 false ⟨4194304, true, 5⟩ ∧
    (0 : ℕ) < 5 ∧
    ((1 : ℕ) : Int) ≤ Int.tdiv (4194304 : Int) 2097152 := by
  have s1 : laneStep 2097152 1 false (laneInit 2097152) ⟨4194304, false, 0⟩ :=
    laneStep.advance (laneInit 2097152) 4194304 (by decide) (by decide)
  have s2 : laneStep 2097152 1 false ⟨4194304, false, 0⟩ ⟨4194304, true, 0⟩ :=
    laneStep.beginRecv _ rfl (Or.inr (by decide))
  have s3 : laneStep 2097152 1 false ⟨4194304, true, 0⟩ ⟨4194304, true, 5⟩ :=
    laneStep.recvSome _ rfl 5 (by decide)
  have hreach : laneReach 2097152 1 false ⟨4194304, true, 5⟩ :=
    Relation.ReflTransGen.tail (Relation.ReflTransGen.tail
      (Relation.ReflTransGen.tail Relation.ReflTransGen.refl s1) s2) s3
  exact ⟨hreach, by decide,
    c7_parity_leads_data 2097152 1 ⟨4194304, true, 5⟩ (by decide) hreach (by decide)⟩

/-- Claim C8: a second `WRITE_PATH` does not rotate the connection to a
new file.  On the stream `c8Stream` (`WRITE_PATH "a"`, `WRITE [7]`,
`WRITE_PATH "b"`, `WRITE [9]`), the second `open` on the already-open
stream fails: file `"b"` (path `[98]`) is never created, the stream
still targets `"a"` (path `[97]`) whose contents remain `[7]`, the
failbit is set — so the final `WRITE` writes nothing anywhere — and only
the cursor was reset to 0. -/
theorem c8_second_write_path_no_rotation :
    (runHandler 4 srvInit c8Stream).1.files [98] = none ∧
    (runHandler 4 srvInit c8Stream).1.files [97] = some [7] ∧
    (runHandler 4 srvInit c8Stream).1.conn.target = some [97] ∧
    (runHandler 4 srvInit c8Stream).1.conn.failbit = true ∧
    (runHandler 4 srvInit c8Stream).1.conn.cursor = 0 ∧
    (runHandler 4 srvInit c8Stream).2 = [] := by
  decide

/-- Claim C9: a write call at a nonzero offset sends no bytes to any
lane, leaves the lane liveness unchanged, and returns the result of the
local `pwrite` at that offset. -/
theorem c9_nonzero_offset_passthrough (n : ℕ) (live : ℕ → Bool) (pw : Int → ℕ → Int)
    (path : List ℕ) (B : ℕ → ℕ) (L : ℕ) (off : Int) (h : off ≠ 0) :
    (myfsWriteCall n live pw path B L off).sent = (fun _ => []) ∧
    (myfsWriteCall n live pw path B L off).serversAfter = live ∧
    (myfsWriteCall n live pw path B L off).ret = pw off L := by
  rw [myfsWriteCall, if_pos h]
  exact ⟨rfl, rfl, rfl⟩

theorem c9_nonzero_offset_passthrough_witness :
    (7 : Int) ≠ 0 ∧
    (myfsWriteCall 3 (fun _ => true) (fun a _ => a) [97] (fun _ => 0) 5 7).sent 0 = [] ∧
    (myfsWriteCall 3 (fun _ => true) (fun a _ => a) [97] (fun _ => 0) 5 7).ret = 7 :=
  ⟨by decide,
    congrFun (c9_nonzero_offset_passthrough 3 (fun _ => true) (fun a _ => a) [97]
      (fun _ => 0) 5 7 (by decide)).1 0,
    (c9_nonzero_offset_passthrough 3 (fun _ => true) (fun a _ => a) [97]
      (fun _ => 0) 5 7 (by decide)).2.2⟩

/-- Claim C10: a `WRITE` header announcing more than `CHUNK_SIZE` bytes
is rejected before any payload is received: the state (files and cursor)
is unchanged, the connection stays open, and exactly the 16 header bytes
are consumed, so the announced payload bytes are parsed as the following
frames. -/
theorem c10_oversize_write_skipped (st : SrvState) (len : ℕ) (tail : List ℕ)
    (h1 : CHUNK_SIZE < len) (h2 : len < 256 ^ 8) :
    handlerStep st (encodeHeader 2 len ++ tail) = some (st, [], tail) := by
  simp only [handlerStep,
    if_neg (header_length_ge 2 len tail),
    decLE_header_ty 2 len tail (by decide),
    decLE_header_len 2 len tail h2,
    header_drop16]
  simp only [if_neg (by decide : ¬ (2 : ℕ) = 0), if_neg (by decide : ¬ (2 : ℕ) = 1),
    if_pos rfl, if_pos h1]
  simp

theorem c10_oversize_write_skipped_witness :
    CHUNK_SIZE < CHUNK_SIZE + 1 ∧ CHUNK_SIZE + 1 < 256 ^ 8 ∧
    handlerStep srvInit (encodeHeader 2 (CHUNK_SIZE + 1) ++ [1, 2, 3]) =
      some (srvInit, [], [1, 2, 3]) :=
  ⟨by decide, by decide,
    c10_oversize_write_skipped srvInit (CHUNK_SIZE + 1) [1, 2, 3] (by decide) (by decide)⟩

end MyFS
